import Mathlib

/-!
# Tag Comparison Engine — shallow embedding

A verification development for a browser tool that compares two columns of
comma-separated review tags per row of a parsed CSV grid.  The embedding
follows `src/app/components/TagAnalyzer.tsx`: the per-row mismatch
extractor `getMismatchedTags`, the L1 tag extractor `getL1Tags`, the row
filter and header check inside the upload handler, and the result bundle.

Strings are Lean `String`s; grids are `List (List String)`.  JavaScript's
`String.prototype.split` on a one- or two-character separator, `trim`, and
default `Array.prototype.sort` are re-implemented over `List Char` so that
every definition evaluates by kernel reduction.  A missing cell
(out-of-range index) is read as `""` where the original code would read
`undefined`; the separate `rowMismatchThrows` predicate records exactly
where the original code would instead raise a `TypeError`.
-/

namespace TagAnalyzer

/-- JS `s.split(c)` for a single-character separator `c`: auxiliary walk over
the characters, `acc` holding the (reversed) pending piece. -/
def splitOnCharAux (c : Char) : List Char → List Char → List String
  | [], acc => [String.mk acc.reverse]
  | x :: xs, acc =>
    if x = c then String.mk acc.reverse :: splitOnCharAux c xs []
    else splitOnCharAux c xs (x :: acc)

/-- JS `s.split(c)` for a single-character separator: `"".split(",") = [""]`,
`"a,b".split(",") = ["a","b"]`. -/
def splitOnChar (s : String) (c : Char) : List String :=
  splitOnCharAux c s.data []

/-- Auxiliary walk for JS `s.split("::")`: leftmost, non-overlapping
occurrences of the two-character delimiter `::`. -/
def splitColonAux : List Char → List Char → List (List Char)
  | ':' :: ':' :: xs, acc => acc.reverse :: splitColonAux xs []
  | x :: xs, acc => splitColonAux xs (x :: acc)
  | [], acc => [acc.reverse]

/-- JS `s.split("::")`. -/
def splitColonColon (s : String) : List String :=
  (splitColonAux s.data []).map String.mk

/-- JS `s.includes("::")`: the split has at least two fields exactly when the
delimiter occurs in `s`. -/
def includesColonColon (s : String) : Bool :=
  2 ≤ (splitColonColon s).length

/-- JS `s.trim()`: strip leading and trailing whitespace. -/
def trimStr (s : String) : String :=
  String.mk (((s.data.dropWhile Char.isWhitespace).reverse.dropWhile Char.isWhitespace).reverse)

/-- The comparison used by JS default `Array.prototype.sort` on strings,
read over the underlying character lists. -/
def strLe (a b : String) : Prop := a.data ≤ b.data

instance : DecidableRel strLe := fun a b => inferInstanceAs (Decidable (a.data ≤ b.data))

instance : IsTotal String strLe := ⟨fun a b => le_total a.data b.data⟩

instance : IsTrans String strLe := ⟨fun _ _ _ h h' => le_trans h h'⟩

/-- The two calling modes of `getMismatchedTags`: `"over" | "under"`. -/
inductive Mode where
  | over
  | under
deriving DecidableEq, Repr

/-- One entry of the extractor output, `string[] | "∅"` in the source:
either a singleton list of joined tags or the sentinel `"∅"`. -/
inductive MismatchEntry where
  | tags (l : List String)
  | sentinel
deriving DecidableEq, Repr

/-- The column-index pair `[sourceIdx, destIdx]` selected by the mode:
`[3, 2]` for `"over"`, `[2, 3]` for `"under"`. -/
def modeIdx : Mode → Nat × Nat
  | Mode.over => (3, 2)
  | Mode.under => (2, 3)

/-- The body of the `getMismatchedTags` loop for one data row, given the
already-selected source and destination column indices. -/
def mismatchRow (sourceIdx destIdx : Nat) (row : List String) : MismatchEntry :=
  let sourceCol := row.getD sourceIdx ""
  let destCol := row.getD destIdx ""
  if sourceCol = "" then
    MismatchEntry.tags [destCol]
  else if destCol = "" then
    MismatchEntry.sentinel
  else
    let sourceTags := splitOnChar sourceCol ','
    let destTags := splitOnChar destCol ','
    let filtered := destTags.filter (fun value => !sourceTags.contains value)
    if 0 < filtered.length then MismatchEntry.tags [String.intercalate "," filtered]
    else MismatchEntry.sentinel

/-- `getMismatchedTags` from the source: loop over rows `1..` of `content`,
pushing one entry per data row. -/
def getMismatchedTags (content : List (List String)) (type : Mode) : List MismatchEntry :=
  (content.drop 1).map (mismatchRow (modeIdx type).1 (modeIdx type).2)

/-- The L1 tag contributed by one flag token: defined when the token
contains `::`, in which case it is the trimmed field `split("::")[1]`. -/
def l1OfFlag (flag : String) : Option String :=
  if includesColonColon flag then some (trimStr ((splitColonColon flag).getD 1 ""))
  else none

/-- The multiset of L1 tags collected from one data row: take the
agent-flags cell (index 2) and QA-flags cell (index 3), drop falsy (empty)
cells, split each survivor on `,`, and keep the `l1OfFlag` of each token. -/
def rowL1Tags (row : List String) : List String :=
  let agentFlags := row.getD 2 ""
  let qaFlags := row.getD 3 ""
  let allFlags := ([agentFlags, qaFlags].filter (fun s => s != "")).flatMap
    (fun flags => splitOnChar flags ',')
  allFlags.filterMap l1OfFlag

/-- `getL1Tags` from the source: collect L1 tags over all data rows into a
set and return it sorted by the default string order. -/
def getL1Tags (content : List (List String)) : List String :=
  List.insertionSort strLe ((content.drop 1).flatMap rowL1Tags).dedup

/-- The row filter inside the upload handler:
`data.filter(row => row[3] !== '')`.  A row too short to have a cell at
index 3 reads `undefined` there, which is `!== ''`, so it is kept. -/
def filterRows (data : List (List String)) : List (List String) :=
  data.filter (fun row => row[3]? != some "")

/-- The exact header row that the upload handler requires. -/
def expectedHeaders : List String :=
  ["Task Link", "Actioned Date", "All Agent Flags", "All QA Flags", "Agent"]

/-- The header check inside the upload handler: length 5 and the five
expected names, in order.  A missing cell reads as `""`, which matches the
original `undefined !== 'name'` rejection. -/
def headerOk (headers : List String) : Bool :=
  headers.length == 5 &&
  headers.getD 0 "" == "Task Link" &&
  headers.getD 1 "" == "Actioned Date" &&
  headers.getD 2 "" == "All Agent Flags" &&
  headers.getD 3 "" == "All QA Flags" &&
  headers.getD 4 "" == "Agent"

/-- Whether the `getMismatchedTags` loop body would raise a `TypeError` on
this row in the original JavaScript: a missing (undefined) cell passes both
`=== ""` checks and then `undefined.split(",")` throws. -/
def rowMismatchThrows (sourceIdx destIdx : Nat) (row : List String) : Bool :=
  let src := row[sourceIdx]?
  let dst := row[destIdx]?
  if src == some "" then false
  else if dst == some "" then false
  else src.isNone || dst.isNone

/-- Whether `getMismatchedTags` would raise a `TypeError` on some data row. -/
def mismatchThrows (content : List (List String)) (type : Mode) : Bool :=
  (content.drop 1).any (rowMismatchThrows (modeIdx type).1 (modeIdx type).2)

/-- The error outcomes of one upload run: the schema message
`'Invalid CSV format. Please check the column headers.'`, or the
`'Error processing file: ...'` message produced by the `catch` around the
computation. -/
inductive EngineError where
  | schema
  | processing
deriving DecidableEq, Repr

/-- The result bundle stored by a successful run. -/
structure AnalysisResults where
  data : List (List String)
  overtags : List MismatchEntry
  undertags : List MismatchEntry
  l1Tags : List String
deriving DecidableEq, Repr

/-- The computation inside the upload handler's `complete` callback: read
the header row (on an empty grid, `data[0].length` throws and is caught as
a processing error), validate it, filter the rows, and either build the
full bundle or report the single error of that run. -/
def runEngine (grid : List (List String)) : Except EngineError AnalysisResults :=
  match grid with
  | [] => Except.error EngineError.processing
  | headers :: _ =>
    if headerOk headers then
      let filteredContent := filterRows grid
      if mismatchThrows filteredContent Mode.over || mismatchThrows filteredContent Mode.under then
        Except.error EngineError.processing
      else
        Except.ok
          { data := filteredContent
            overtags := getMismatchedTags filteredContent Mode.over
            undertags := getMismatchedTags filteredContent Mode.under
            l1Tags := getL1Tags filteredContent }
    else
      Except.error EngineError.schema

/-- Modelled from the spec: §4.4 describes the L1 value of a token as "the
substring after the *first* occurrence of the delimiter, trim surrounding
whitespace" — the suffix of the token after its first `::`. -/
def afterFirstColonColon : List Char → Option (List Char)
  | ':' :: ':' :: xs => some xs
  | _ :: xs => afterFirstColonColon xs
  | [] => none

/-- Modelled from the spec: the L1 tag of one token per the spec's words —
the trimmed substring after the first occurrence of `::`, none when the
token has no `::`. -/
def l1OfFlagSpec (flag : String) : Option String :=
  (afterFirstColonColon flag.data).map (fun cs => trimStr (String.mk cs))

/-- Modelled from the spec: the L1 extractor with the spec's per-token rule
(`l1OfFlagSpec`), all other steps as in §4.4. -/
def getL1TagsSpec (content : List (List String)) : List String :=
  List.insertionSort strLe
    ((content.drop 1).flatMap (fun row =>
      let agentFlags := row.getD 2 ""
      let qaFlags := row.getD 3 ""
      let allFlags := ([agentFlags, qaFlags].filter (fun s => s != "")).flatMap
        (fun flags => splitOnChar flags ',')
      allFlags.filterMap l1OfFlagSpec)).dedup

/-! ## Helper lemmas -/

/-- Output entry `i` of the extractor is the loop body applied to row `i+1`. -/
theorem getMismatchedTags_getElem? (content : List (List String)) (type : Mode) (i : Nat) :
    (getMismatchedTags content type)[i]? =
      content[i + 1]?.map (mismatchRow (modeIdx type).1 (modeIdx type).2) := by
  simp [getMismatchedTags, List.getElem?_drop, Nat.add_comm 1 i]

/-- The header check accepts exactly the expected header row. -/
theorem headerOk_iff (headers : List String) :
    headerOk headers = true ↔ headers = expectedHeaders := by
  rcases headers with _ | ⟨a, _ | ⟨b, _ | ⟨c, _ | ⟨d, _ | ⟨e, _ | ⟨f, t⟩⟩⟩⟩⟩⟩ <;>
    simp [headerOk, expectedHeaders]
  aesop

/-- On a row that actually has its source and destination cells, the loop
body never raises. -/
theorem rowMismatchThrows_eq_false (row : List String) (i j : Nat)
    (hi : i < row.length) (hj : j < row.length) :
    rowMismatchThrows i j row = false := by
  unfold rowMismatchThrows
  simp [List.getElem?_eq_getElem, hi, hj]

/-- A sentinel from the comparison branch means every destination token
also occurs among the source tokens. -/
theorem mismatchRow_sentinel_subset (i j : Nat) (row : List String)
    (hs : row.getD i "" ≠ "") (hd : row.getD j "" ≠ "")
    (h : mismatchRow i j row = MismatchEntry.sentinel) :
    ∀ t ∈ splitOnChar (row.getD j "") ',', t ∈ splitOnChar (row.getD i "") ',' := by
  simp only [mismatchRow, if_neg hs, if_neg hd] at h
  intro t ht
  by_contra hmem
  have htf : t ∈ (splitOnChar (row.getD j "") ',').filter
      (fun value => !(splitOnChar (row.getD i "") ',').contains value) :=
    List.mem_filter.mpr ⟨ht, by simpa using hmem⟩
  rw [if_pos (List.length_pos_of_mem htf)] at h
  exact MismatchEntry.noConfusion h

/-- The loop body, written as the per-row case rule of the spec: the
empty-source branch, the empty-destination branch, and the token-difference
branch with its empty/non-empty split. -/
theorem mismatchRow_eq (i j : Nat) (row : List String) :
    mismatchRow i j row =
      (if row.getD i "" = "" then MismatchEntry.tags [row.getD j ""]
      else if row.getD j "" = "" then MismatchEntry.sentinel
      else if (splitOnChar (row.getD j "") ',').filter
          (fun t => decide (t ∉ splitOnChar (row.getD i "") ',')) = []
        then MismatchEntry.sentinel
        else MismatchEntry.tags [String.intercalate ","
          ((splitOnChar (row.getD j "") ',').filter
            (fun t => decide (t ∉ splitOnChar (row.getD i "") ',')))]) := by
  have hfun : (fun value => !(splitOnChar (row.getD i "") ',').contains value)
      = (fun t => decide (t ∉ splitOnChar (row.getD i "") ',')) := by
    funext v
    rw [Bool.eq_iff_iff]
    simp
  simp only [mismatchRow, hfun]
  by_cases h1 : row.getD i "" = ""
  · simp only [if_pos h1]
  · simp only [if_neg h1]
    by_cases h2 : row.getD j "" = ""
    · simp only [if_pos h2]
    · simp only [if_neg h2]
      rcases eq_or_ne ((splitOnChar (row.getD j "") ',').filter
          (fun t => decide (t ∉ splitOnChar (row.getD i "") ','))) [] with hf | hf
      · simp only [hf, List.length_nil, if_pos rfl]
        norm_num
      · simp only [if_neg hf, if_pos (List.length_pos.mpr hf)]

/-! ## Claims -/

/-- C1: per-row contract of the mismatch extractor — for every filtered grid
and every data row (header at index 0 skipped), with `source` the cell at
the mode's source index and `dest` the cell at the mode's destination
index: if `source = ""` the entry is the singleton `[dest]` (even when
`dest` is also empty); else if `dest = ""` the entry is the sentinel; else
both cells are split on `,` and the entry is the singleton comma-rejoin of
the `dest` tokens matching no source token exactly, in original order with
duplicates, or the sentinel when that filtered list is empty.  Emptiness is
exact equality with `""`. -/
theorem mismatch_per_row_contract (content : List (List String)) (mode : Mode)
    (i : Nat) (row : List String) (hrow : content[i + 1]? = some row) :
    (getMismatchedTags content mode)[i]? = some (
      let source := row.getD (modeIdx mode).1 ""
      let dest := row.getD (modeIdx mode).2 ""
      if source = "" then MismatchEntry.tags [dest]
      else if dest = "" then MismatchEntry.sentinel
      else if (splitOnChar dest ',').filter (fun t => decide (t ∉ splitOnChar source ',')) = []
        then MismatchEntry.sentinel
        else MismatchEntry.tags [String.intercalate ","
          ((splitOnChar dest ',').filter (fun t => decide (t ∉ splitOnChar source ',')))]) := by
  rw [getMismatchedTags_getElem?, hrow, Option.map_some']
  rw [mismatchRow_eq]

/-- Witness for C1 at a concrete grid: the row `["u","d","A,B","B","a"]` in
over mode keeps exactly the agent token `A`. -/
theorem mismatch_per_row_contract_witness :
    (getMismatchedTags [[], ["u", "d", "A,B", "B", "a"]] Mode.over)[0]? =
      some (MismatchEntry.tags ["A"]) := by
  have h := mismatch_per_row_contract [[], ["u", "d", "A,B", "B", "a"]] Mode.over 0
    ["u", "d", "A,B", "B", "a"] rfl
  exact h.trans (by decide)

/-- C6 counterexample: in the row with agent flags `"A"` and QA flags
`"B"`, the over-mode entry is `["A"]`, whose only token lies in the agent
cell's tokens and not in the QA cell's tokens — the opposite of the claim's
"present among QA flags and absent from Agent flags". -/
theorem overtag_semantics_cex :
    getMismatchedTags [[], ["u", "d", "A", "B", "a"]] Mode.over =
      [MismatchEntry.tags ["A"]] ∧
    ¬ (∀ t ∈ splitOnChar "A" ',', t ∈ splitOnChar "B" ',' ∧ t ∉ splitOnChar "A" ',') := by
  constructor
  · rfl
  · decide

/-- C6 amended: for every retained data row with both flag cells non-empty,
every token of the over-mode entry is present among the row's Agent flags
(cell 2) and absent from the row's QA flags (cell 3). -/
theorem overtag_semantics (content : List (List String)) (i : Nat) (row : List String)
    (hrow : content[i + 1]? = some row)
    (ha : row.getD 2 "" ≠ "") (hq : row.getD 3 "" ≠ "") (l : List String)
    (hl : (getMismatchedTags content Mode.over)[i]? = some (MismatchEntry.tags l)) :
    ∃ ts, ts ≠ [] ∧ l = [String.intercalate "," ts] ∧
      ∀ t ∈ ts, t ∈ splitOnChar (row.getD 2 "") ',' ∧ t ∉ splitOnChar (row.getD 3 "") ',' := by
  rw [getMismatchedTags_getElem?, hrow, Option.map_some'] at hl
  replace hl : mismatchRow 3 2 row = MismatchEntry.tags l := Option.some.inj hl
  rw [mismatchRow_eq] at hl
  rw [if_neg hq, if_neg ha] at hl
  rcases eq_or_ne ((splitOnChar (row.getD 2 "") ',').filter
      (fun t => decide (t ∉ splitOnChar (row.getD 3 "") ','))) [] with hf | hf
  · rw [if_pos hf] at hl
    exact absurd hl (by simp)
  · rw [if_neg hf] at hl
    refine ⟨(splitOnChar (row.getD 2 "") ',').filter
      (fun t => decide (t ∉ splitOnChar (row.getD 3 "") ',')), hf, (MismatchEntry.tags.inj hl).symm, ?_⟩
    intro t ht
    have := List.mem_filter.mp ht
    exact ⟨this.1, by simpa using this.2⟩

/-- Witness for C6 (amended) at a concrete grid: the over entry `["A"]` of
the row with agent flags `"A"` and QA flags `"B"` decomposes as required. -/
theorem overtag_semantics_witness :
    ∃ ts, ts ≠ [] ∧ (["A"] : List String) = [String.intercalate "," ts] ∧
      ∀ t ∈ ts, t ∈ splitOnChar "A" ',' ∧ t ∉ splitOnChar "B" ',' := by
  have h := overtag_semantics [[], ["u", "d", "A", "B", "a"]] 0 ["u", "d", "A", "B", "a"]
    rfl (by decide) (by decide) ["A"] (by rw [getMismatchedTags_getElem?]; rfl)
  simpa using h

/-- C7 counterexample: with agent cell `""` and QA cell `"X"`, the
over-mode entry is the sentinel — not the singleton `["X"]` the claim
asserts — and the under-mode entry is `["X"]`, not the sentinel. -/
theorem empty_agent_cell_cex :
    getMismatchedTags [[], ["u", "d", "", "X", "a"]] Mode.over = [MismatchEntry.sentinel] ∧
    getMismatchedTags [[], ["u", "d", "", "X", "a"]] Mode.under = [MismatchEntry.tags ["X"]] ∧
    MismatchEntry.sentinel ≠ MismatchEntry.tags ["X"] := by
  refine ⟨rfl, rfl, by decide⟩

/-- C7 amended: for every data row whose agent-flags cell (index 2) is `""`
and whose QA-flags cell (index 3) is non-empty, the over-mode entry is the
sentinel (its source, the QA cell, is non-empty but its destination is
empty) and the under-mode entry is the singleton holding the QA cell
verbatim (its source, the agent cell, is empty). -/
theorem empty_agent_cell (content : List (List String)) (i : Nat) (row : List String)
    (hrow : content[i + 1]? = some row)
    (ha : row.getD 2 "" = "") (hq : row.getD 3 "" ≠ "") :
    (getMismatchedTags content Mode.over)[i]? = some MismatchEntry.sentinel ∧
    (getMismatchedTags content Mode.under)[i]? = some (MismatchEntry.tags [row.getD 3 ""]) := by
  constructor
  · rw [getMismatchedTags_getElem?, hrow, Option.map_some']
    show some (mismatchRow 3 2 row) = _
    rw [mismatchRow_eq, if_neg hq, if_pos ha]
  · rw [getMismatchedTags_getElem?, hrow, Option.map_some']
    show some (mismatchRow 2 3 row) = _
    rw [mismatchRow_eq, if_pos ha]

/-- Witness for C7 (amended) at the concrete row `["u","d","","X","a"]`. -/
theorem empty_agent_cell_witness :
    (getMismatchedTags [[], ["u", "d", "", "X", "a"]] Mode.over)[0]? =
      some MismatchEntry.sentinel ∧
    (getMismatchedTags [[], ["u", "d", "", "X", "a"]] Mode.under)[0]? =
      some (MismatchEntry.tags ["X"]) := by
  have h := empty_agent_cell [[], ["u", "d", "", "X", "a"]] 0 ["u", "d", "", "X", "a"]
    rfl (by decide) (by decide)
  simpa using h

/-- C8: for every data row, over mode (source 3, dest 2) and under mode
(source 2, dest 3) never both produce the sentinel unless the agent cell
and the QA cell split on `,` into the same token set and neither cell is
empty (so neither triggers the empty-source or empty-dest branch). -/
theorem mismatch_symmetry (content : List (List String)) (i : Nat) (row : List String)
    (hrow : content[i + 1]? = some row)
    (hover : (getMismatchedTags content Mode.over)[i]? = some MismatchEntry.sentinel)
    (hunder : (getMismatchedTags content Mode.under)[i]? = some MismatchEntry.sentinel) :
    row.getD 2 "" ≠ "" ∧ row.getD 3 "" ≠ "" ∧
      ∀ t, t ∈ splitOnChar (row.getD 2 "") ',' ↔ t ∈ splitOnChar (row.getD 3 "") ',' := by
  rw [getMismatchedTags_getElem?, hrow, Option.map_some'] at hover hunder
  replace hover : mismatchRow 3 2 row = MismatchEntry.sentinel := Option.some.inj hover
  replace hunder : mismatchRow 2 3 row = MismatchEntry.sentinel := Option.some.inj hunder
  by_cases hq : row.getD 3 "" = ""
  · rw [mismatchRow_eq, if_pos hq] at hover
    exact absurd hover (by simp)
  by_cases ha : row.getD 2 "" = ""
  · rw [mismatchRow_eq, if_pos ha] at hunder
    exact absurd hunder (by simp)
  refine ⟨ha, hq, fun t => ⟨?_, ?_⟩⟩
  · exact fun ht => mismatchRow_sentinel_subset 3 2 row hq ha hover t ht
  · exact fun ht => mismatchRow_sentinel_subset 2 3 row ha hq hunder t ht

/-- Witness for C8 at a row whose two flag cells hold the same token list:
both modes yield the sentinel and the theorem's conclusion is obtained. -/
theorem mismatch_symmetry_witness :
    ("x" : String) ≠ "" ∧ ("x" : String) ≠ "" ∧
      ∀ t, t ∈ splitOnChar "x" ',' ↔ t ∈ splitOnChar "x" ',' := by
  have h := mismatch_symmetry [[], ["u", "d", "x", "x", "a"]] 0 ["u", "d", "x", "x", "a"]
    rfl (by rw [getMismatchedTags_getElem?]; rfl) (by rw [getMismatchedTags_getElem?]; rfl)
  exact h

/-- C3 counterexample: the filter treats the header row like any other row,
so a grid whose header row has an empty cell at index 3 loses its header —
it is not "always retained regardless of its own cell[3] value". -/
theorem row_filter_cex :
    filterRows [["h0", "h1", "h2", "", "h4"]] = [] ∧
    ["h0", "h1", "h2", "", "h4"] ∉ filterRows [["h0", "h1", "h2", "", "h4"]] := by
  refine ⟨rfl, by decide⟩

/-- C3 amended: the filter returns exactly the subsequence of rows whose
cell at index 3 is not the empty string — the header row included, treated
uniformly, so it is retained exactly when its own cell[3] is non-empty.
The output is a sublist (order preserved), no longer than the input, and
every output row has non-empty cell[3]; in the validated pipeline the
header's cell[3] is `"All QA Flags"`, so a successful run always keeps the
header as the first filtered row. -/
theorem row_filter_contract (grid : List (List String)) :
    (filterRows grid).Sublist grid ∧
    (filterRows grid).length ≤ grid.length ∧
    (∀ row ∈ filterRows grid, row[3]? ≠ some "") ∧
    (∀ row, row ∈ filterRows grid ↔ row ∈ grid ∧ row[3]? ≠ some "") ∧
    (∀ headers rest b, runEngine (headers :: rest) = Except.ok b →
      b.data.head? = some expectedHeaders) := by
  refine ⟨List.filter_sublist grid, List.length_filter_le _ grid, ?_, ?_, ?_⟩
  · intro row hrow
    have := (List.mem_filter.mp hrow).2
    simpa using this
  · intro row
    rw [filterRows, List.mem_filter]
    simp
  · intro headers rest b hok
    simp only [runEngine] at hok
    by_cases hh : headerOk headers
    · rw [if_pos hh] at hok
      have hexp : headers = expectedHeaders := (headerOk_iff headers).mp hh
      subst hexp
      by_cases hthrow : mismatchThrows (filterRows (expectedHeaders :: rest)) Mode.over
          || mismatchThrows (filterRows (expectedHeaders :: rest)) Mode.under
      · rw [if_pos hthrow] at hok
        exact Except.noConfusion hok
      · rw [if_neg hthrow] at hok
        have hb : b = _ := (Except.ok.inj hok).symm
        have hkeep : filterRows (expectedHeaders :: rest) = expectedHeaders :: filterRows rest := by
          rw [filterRows, List.filter_cons, if_pos (by decide)]
          rfl
        rw [hb]
        simp [hkeep]
    · rw [if_neg hh] at hok
      exact Except.noConfusion hok

/-- Witness for C3 (amended), pipeline part instantiated on the concrete
successful run over the bare expected header. -/
theorem row_filter_contract_witness :
    runEngine [expectedHeaders] =
      Except.ok ⟨[expectedHeaders], [], [], []⟩ ∧
    (⟨[expectedHeaders], [], [], []⟩ : AnalysisResults).data.head? = some expectedHeaders := by
  refine ⟨rfl, ?_⟩
  exact (row_filter_contract []).2.2.2.2 expectedHeaders [] ⟨[expectedHeaders], [], [], []⟩ rfl

/-- C4: the header validator accepts a grid's first row exactly when it is
`["Task Link","Actioned Date","All Agent Flags","All QA Flags","Agent"]`;
on any deviation the run aborts with the schema error and produces no
result bundle. -/
theorem header_validation (headers : List String) (rest : List (List String)) :
    (runEngine (headers :: rest) = Except.error EngineError.schema ↔
      headers ≠ expectedHeaders) ∧
    (headers ≠ expectedHeaders → ∀ b, runEngine (headers :: rest) ≠ Except.ok b) := by
  have hmain : runEngine (headers :: rest) = Except.error EngineError.schema ↔
      headers ≠ expectedHeaders := by
    simp only [runEngine]
    by_cases hh : headerOk headers
    · rw [if_pos hh]
      have hexp := (headerOk_iff headers).mp hh
      constructor
      · intro h
        by_cases hthrow : mismatchThrows (filterRows (headers :: rest)) Mode.over
            || mismatchThrows (filterRows (headers :: rest)) Mode.under
        · rw [if_pos hthrow] at h
          exact absurd (Except.error.inj h) (by decide)
        · rw [if_neg hthrow] at h
          exact Except.noConfusion h
      · intro h
        exact absurd hexp h
    · rw [if_neg hh]
      constructor
      · intro _
        exact fun hexp => hh ((headerOk_iff headers).mpr hexp)
      · intro _
        rfl
  refine ⟨hmain, fun hne b hok => ?_⟩
  rw [hmain.mpr hne] at hok
  exact Except.noConfusion hok

/-- Witness for C4: a renamed first column is rejected with the schema
error. -/
theorem header_validation_witness :
    runEngine [["Task", "Actioned Date", "All Agent Flags", "All QA Flags", "Agent"]] =
      Except.error EngineError.schema := by
  exact (header_validation ["Task", "Actioned Date", "All Agent Flags", "All QA Flags", "Agent"]
    []).1.mpr (by decide)

/-- C5: every successfully produced result bundle has one overtag entry and
one undertag entry per data row of the filtered grid — both lists have
length `filteredGrid.length - 1`, the header row being excluded. -/
theorem bundle_lengths (grid : List (List String)) (b : AnalysisResults)
    (h : runEngine grid = Except.ok b) :
    b.overtags.length = b.data.length - 1 ∧ b.undertags.length = b.data.length - 1 := by
  match grid with
  | [] => exact Except.noConfusion h
  | headers :: rest =>
    simp only [runEngine] at h
    by_cases hh : headerOk headers
    · rw [if_pos hh] at h
      by_cases hthrow : mismatchThrows (filterRows (headers :: rest)) Mode.over
          || mismatchThrows (filterRows (headers :: rest)) Mode.under
      · rw [if_pos hthrow] at h
        exact Except.noConfusion h
      · rw [if_neg hthrow] at h
        have hb : b = _ := (Except.ok.inj h).symm
        rw [hb]
        simp [getMismatchedTags]
    · rw [if_neg hh] at h
      exact Except.noConfusion h

/-- Witness for C5 on a concrete successful run with one data row. -/
theorem bundle_lengths_witness :
    (⟨[expectedHeaders, ["u", "d", "A", "B", "a"]],
        [MismatchEntry.tags ["A"]], [MismatchEntry.tags ["B"]],
        []⟩ : AnalysisResults).overtags.length =
      (⟨[expectedHeaders, ["u", "d", "A", "B", "a"]],
        [MismatchEntry.tags ["A"]], [MismatchEntry.tags ["B"]],
        []⟩ : AnalysisResults).data.length - 1 := by
  exact (bundle_lengths [expectedHeaders, ["u", "d", "A", "B", "a"]] _ rfl).1

/-- C9: on every grid honouring the 5-column input contract, the mismatch
extractor raises no error in either mode (no data row of the filtered grid
reaches the `undefined.split` `TypeError`), and the run as a whole yields
either a single error indicator or a full bundle whose parts are mutually
consistent — never a partially populated bundle. -/
theorem engine_totality (grid : List (List String))
    (h5 : ∀ row ∈ grid, row.length = 5) :
    mismatchThrows (filterRows grid) Mode.over = false ∧
    mismatchThrows (filterRows grid) Mode.under = false ∧
    ((∃ e, runEngine grid = Except.error e) ∨
      (∃ b, runEngine grid = Except.ok b ∧
        b.data = filterRows grid ∧
        b.overtags = getMismatchedTags (filterRows grid) Mode.over ∧
        b.undertags = getMismatchedTags (filterRows grid) Mode.under ∧
        b.l1Tags = getL1Tags (filterRows grid) ∧
        b.overtags.length = b.data.length - 1 ∧
        b.undertags.length = b.data.length - 1)) := by
  have hnothrow : ∀ ty : Mode, mismatchThrows (filterRows grid) ty = false := by
    intro ty
    rw [mismatchThrows, List.any_eq_false]
    intro row hrow
    have hmem : row ∈ grid := (List.filter_sublist grid).subset (List.mem_of_mem_drop hrow)
    have hlen : row.length = 5 := h5 row hmem
    have h1 : (modeIdx ty).1 < row.length := by cases ty <;> simp [modeIdx, hlen]
    have h2 : (modeIdx ty).2 < row.length := by cases ty <;> simp [modeIdx, hlen]
    simp [rowMismatchThrows_eq_false row _ _ h1 h2]
  refine ⟨hnothrow Mode.over, hnothrow Mode.under, ?_⟩
  match grid with
  | [] => exact Or.inl ⟨EngineError.processing, rfl⟩
  | headers :: rest =>
    by_cases hh : headerOk headers
    · have hrun : runEngine (headers :: rest) = Except.ok
          { data := filterRows (headers :: rest)
            overtags := getMismatchedTags (filterRows (headers :: rest)) Mode.over
            undertags := getMismatchedTags (filterRows (headers :: rest)) Mode.under
            l1Tags := getL1Tags (filterRows (headers :: rest)) } := by
        simp only [runEngine]
        rw [if_pos hh, hnothrow Mode.over, hnothrow Mode.under]
        rfl
      exact Or.inr ⟨_, hrun, rfl, rfl, rfl, rfl,
        by simp [getMismatchedTags], by simp [getMismatchedTags]⟩
    · exact Or.inl ⟨EngineError.schema, by simp only [runEngine]; rw [if_neg hh]⟩

/-- Witness for C9 on a concrete 5-column grid. -/
theorem engine_totality_witness :
    mismatchThrows (filterRows [expectedHeaders, ["u", "d", "A", "B", "a"]]) Mode.over = false ∧
    mismatchThrows (filterRows [expectedHeaders, ["u", "d", "A", "B", "a"]]) Mode.under = false ∧
    ((∃ e, runEngine [expectedHeaders, ["u", "d", "A", "B", "a"]] = Except.error e) ∨
      (∃ b, runEngine [expectedHeaders, ["u", "d", "A", "B", "a"]] = Except.ok b ∧
        b.data = filterRows [expectedHeaders, ["u", "d", "A", "B", "a"]] ∧
        b.overtags = getMismatchedTags (filterRows [expectedHeaders, ["u", "d", "A", "B", "a"]])
          Mode.over ∧
        b.undertags = getMismatchedTags (filterRows [expectedHeaders, ["u", "d", "A", "B", "a"]])
          Mode.under ∧
        b.l1Tags = getL1Tags (filterRows [expectedHeaders, ["u", "d", "A", "B", "a"]]) ∧
        b.overtags.length = b.data.length - 1 ∧
        b.undertags.length = b.data.length - 1)) := by
  exact engine_totality [expectedHeaders, ["u", "d", "A", "B", "a"]] (by decide)

/-- `l1OfFlag` produces a value exactly on tokens containing `::`, and that
value is the trimmed field `split("::")[1]`. -/
theorem l1OfFlag_eq_some {flag t : String} :
    l1OfFlag flag = some t ↔
      includesColonColon flag = true ∧ t = trimStr ((splitColonColon flag).getD 1 "") := by
  unfold l1OfFlag
  by_cases h : includesColonColon flag
  · simp [h, eq_comm]
  · simp [h]

/-- C2 counterexample: on the token `"a::b::c"` the code adds the field
between the first and second `::` (`"b"`), not the substring after the
first occurrence (`"b::c"`) — the extractor embedded from the source and
the extractor worded as the claim states disagree on this grid. -/
theorem l1_extractor_cex :
    getL1Tags [[], ["u", "d", "a::b::c", "", "x"]] = ["b"] ∧
    getL1TagsSpec [[], ["u", "d", "a::b::c", "", "x"]] = ["b::c"] ∧
    (["b"] : List String) ≠ ["b::c"] := by
  refine ⟨rfl, rfl, by decide⟩

/-- C2 amended: the L1 output is sorted ascending in the default string
order, has no duplicates, and contains exactly the trimmed `split("::")[1]`
fields — the segment of the token between its first `::` and the next
occurrence (or the token's end) — of the `,`-tokens of the non-empty flag
cells (indices 2 and 3) of the data rows; tokens without `::` contribute
nothing. -/
theorem l1_extractor_contract (content : List (List String)) :
    (getL1Tags content).Sorted (· ≤ ·) ∧
    (getL1Tags content).Nodup ∧
    (∀ t, t ∈ getL1Tags content ↔ ∃ row ∈ content.drop 1,
      ∃ c ∈ [row.getD 2 "", row.getD 3 ""], c ≠ "" ∧
        ∃ tok ∈ splitOnChar c ',', includesColonColon tok = true ∧
          t = trimStr ((splitColonColon tok).getD 1 "")) := by
  refine ⟨?_, ?_, ?_⟩
  · have hs : (getL1Tags content).Sorted strLe := List.sorted_insertionSort strLe _
    exact List.Pairwise.imp (fun h => String.le_iff_toList_le.mpr h) hs
  · exact ((List.perm_insertionSort strLe _).nodup_iff).mpr (List.nodup_dedup _)
  · intro t
    rw [getL1Tags, List.mem_insertionSort, List.mem_dedup, List.mem_flatMap]
    constructor
    · rintro ⟨row, hrow, ht⟩
      simp only [rowL1Tags, List.mem_filterMap, List.mem_flatMap, List.mem_filter] at ht
      obtain ⟨tok, ⟨c, ⟨hc_mem, hc_ne⟩, htok⟩, hval⟩ := ht
      rw [l1OfFlag_eq_some] at hval
      exact ⟨row, hrow, c, hc_mem, by simpa using hc_ne, tok, htok, hval.1, hval.2⟩
    · rintro ⟨row, hrow, c, hc_mem, hc_ne, tok, htok, hinc, hval⟩
      refine ⟨row, hrow, ?_⟩
      simp only [rowL1Tags, List.mem_filterMap, List.mem_flatMap, List.mem_filter]
      exact ⟨tok, ⟨c, ⟨hc_mem, by simpa using hc_ne⟩, htok⟩, l1OfFlag_eq_some.mpr ⟨hinc, hval⟩⟩

/-- C10: there is an input grid on which the L1 output contains the empty
string — a flag token whose `::` is followed by nothing (here the QA cell
`"Spam::"`) contributes `""` to the returned list. -/
theorem l1_empty_string_member :
    ∃ content, "" ∈ getL1Tags content :=
  ⟨[["h"], ["u", "d", "", "Spam::", "x"]], by decide⟩

end TagAnalyzer
